import Mathlib

/-!
Verification of the tolerant JSON recovery routine (`sanitize_and_parse`)
of the Contract-Risk-Scanner repository (`streamlit_app.py`).

The shallow embedding below translates, from the source:
  * `json.loads` (the strict decoder) as a fueled recursive-descent parser
    `json_loads : String → Option Json`;
  * the repair pipeline of `sanitize_and_parse` (strip, the three numeric-key
    regex substitutions, quote normalization, boundary extraction);
  * `json.dumps(·, indent=2, ensure_ascii=False)` (the `pretty_json`
    serialization at line 218) as `pretty_json : Json → String`.

Modelling notes (deliberate restrictions, none exercised by any claim):
  * JSON numeric literals are modelled on their integer fragment
    (`-?(0|[1-9][0-9]*)`); a following `.`/`e`/`E` (a float literal) makes the
    modelled parse fail where Python would produce a float.  `NaN`/`Infinity`
    are likewise not modelled.
  * Python `dict` collapse of duplicate object keys is not modelled: objects
    keep their key/value pairs in textual order.
  * Whitespace (for `str.strip` and the regex `\s`) is modelled as the six
    ASCII whitespace characters; exotic Unicode whitespace is not modelled.
    Likewise `\d` is modelled as the ASCII digits.
  * Python `None` — which is both the decoded JSON `null` and the routine's
    "not recoverable" return — is `Json.null`; the two are one value in
    Python and therefore one value here.
  * `\uXXXX` escapes for surrogate code points are not modelled (Lean `Char`
    is a Unicode scalar value).
-/

mutual
/-- JSON values as produced by the strict decoder (`json.loads`). -/
inductive Json : Type where
  | null : Json
  | bool : Bool → Json
  | num : Int → Json
  | str : String → Json
  | arr : JArr → Json
  | obj : JObj → Json
  deriving DecidableEq, Repr

inductive JArr : Type where
  | nil : JArr
  | cons : Json → JArr → JArr
  deriving DecidableEq, Repr

inductive JObj : Type where
  | nil : JObj
  | cons : String → Json → JObj → JObj
  deriving DecidableEq, Repr
end

/-- The decoded value is a container (a JSON object or array). -/
def isContainer : Json → Bool
  | .arr _ => true
  | .obj _ => true
  | _ => false

/-! ## Character classes -/

/-- JSON inter-token whitespace (what `json.loads` skips between tokens). -/
def isJsonWs (c : Char) : Bool :=
  c = ' ' || c = '\t' || c = '\n' || c = '\r'

/-- Python whitespace: the set stripped by `str.strip()` and matched by the
regex class `\s` (modelled on its six ASCII members). -/
def isPyWs (c : Char) : Bool :=
  c = ' ' || c = '\t' || c = '\n' || c = '\r' || c = '\x0b' || c = '\x0c'

/-- Drop leading JSON whitespace. -/
def skipWs : List Char → List Char
  | [] => []
  | c :: r => if isJsonWs c then skipWs r else c :: r

/-! ## Strict string-literal scanning (the body after an opening `"`) -/

/-- ASCII decimal digit (the modelled regex `\d` and json digit). -/
def isDig (c : Char) : Bool := 48 ≤ c.toNat && c.toNat ≤ 57

def hexVal? (c : Char) : Option Nat :=
  if 48 ≤ c.toNat ∧ c.toNat ≤ 57 then some (c.toNat - 48)
  else if 97 ≤ c.toNat ∧ c.toNat ≤ 102 then some (c.toNat - 87)
  else if 65 ≤ c.toNat ∧ c.toNat ≤ 70 then some (c.toNat - 55)
  else none

def pushChar (c : Char) (o : Option (List Char × List Char)) :
    Option (List Char × List Char) :=
  o.map (fun p => (c :: p.1, p.2))

/-- Fueled worker for `parseStr` (each step consumes at least one character,
so fuel `length + 1` always suffices; the fuel only makes the recursion
structural). -/
def parseStrF : Nat → List Char → Option (List Char × List Char)
  | 0, _ => none
  | _ + 1, [] => none
  | f + 1, c :: r =>
    if c = '"' then some ([], r)
    else if c = '\\' then
      match r with
      | [] => none
      | e :: r2 =>
        if e = '"' then pushChar '"' (parseStrF f r2)
        else if e = '\\' then pushChar '\\' (parseStrF f r2)
        else if e = '/' then pushChar '/' (parseStrF f r2)
        else if e = 'b' then pushChar '\x08' (parseStrF f r2)
        else if e = 'f' then pushChar '\x0c' (parseStrF f r2)
        else if e = 'n' then pushChar '\n' (parseStrF f r2)
        else if e = 'r' then pushChar '\r' (parseStrF f r2)
        else if e = 't' then pushChar '\t' (parseStrF f r2)
        else if e = 'u' then
          match r2 with
          | h1 :: h2 :: h3 :: h4 :: r3 =>
            match hexVal? h1, hexVal? h2, hexVal? h3, hexVal? h4 with
            | some a, some b, some c2, some d =>
              let code := ((a * 16 + b) * 16 + c2) * 16 + d
              if code < 0xd800 ∨ 0xe000 ≤ code then
                pushChar (Char.ofNat code) (parseStrF f r3)
              else none
            | _, _, _, _ => none
          | _ => none
        else none
    else if c.toNat < 32 then none
    else pushChar c (parseStrF f r)

/-- Scan a JSON string body (input starts after the opening quote); returns
the decoded characters and the input after the closing quote.  `strict=True`
semantics: a raw control character is an error. -/
def parseStr (l : List Char) : Option (List Char × List Char) :=
  parseStrF (l.length + 1) l

/-! ## Number scanning: the integer fragment of the JSON number grammar -/

/-- Longest prefix of decimal digits, with the remaining input. -/
def spanDigits : List Char → List Char × List Char
  | [] => ([], [])
  | c :: r =>
    if isDig c then
      let p := spanDigits r
      (c :: p.1, p.2)
    else ([], c :: r)

def digitVal (c : Char) : Nat := c.toNat - 48

/-- MSB-first accumulation of a digit string. -/
def digitsToNat (l : List Char) : Nat :=
  l.foldl (fun a c => a * 10 + digitVal c) 0

/-- The input may legitimately follow a rendered number: empty, or headed by
a character that neither extends the digit run nor starts a float suffix. -/
def numDelim : List Char → Bool
  | [] => true
  | c :: _ => !(isDig c || c = '.' || c = 'e' || c = 'E')

/-- After the integer part, a `.`/`e`/`E` would start a float literal, which
is outside this model (see the header comment): the modelled parse fails. -/
def afterNum (n : Int) (rest : List Char) : Option (Int × List Char) :=
  match rest with
  | [] => some (n, [])
  | c :: _ => if c = '.' ∨ c = 'e' ∨ c = 'E' then none else some (n, rest)

/-- Scan an unsigned `0|[1-9][0-9]*`, negating the value when `neg` is set. -/
def parsePosInt (neg : Bool) (l : List Char) : Option (Int × List Char) :=
  match l with
  | [] => none
  | c :: r =>
    if c = '0' then afterNum 0 r
    else if isDig c then
      let q := spanDigits r
      let v : Int := Int.ofNat (digitsToNat (c :: q.1))
      afterNum (if neg then -v else v) q.2
    else none

/-- Scan `-?(0|[1-9][0-9]*)` (Python's json `NUMBER_RE` integer part). -/
def parseIntTok (l : List Char) : Option (Int × List Char) :=
  match l with
  | [] => none
  | c :: r =>
    if c = '-' then parsePosInt true r
    else parsePosInt false (c :: r)

/-! ## The value parser (fueled recursive descent, mirroring `json.loads`) -/

mutual
def parseVal : Nat → List Char → Option (Json × List Char)
  | 0, _ => none
  | f + 1, l =>
    match skipWs l with
    | [] => none
    | c :: r =>
      if c = '{' then
        match skipWs r with
        | [] => none
        | c2 :: r2 =>
          if c2 = '}' then some (.obj .nil, r2)
          else (parseObjItems f r).map (fun p => (Json.obj p.1, p.2))
      else if c = '[' then
        match skipWs r with
        | [] => none
        | c2 :: r2 =>
          if c2 = ']' then some (.arr .nil, r2)
          else (parseArrItems f r).map (fun p => (Json.arr p.1, p.2))
      else if c = '"' then
        (parseStr r).map (fun p => (Json.str (String.mk p.1), p.2))
      else if c = 't' then
        match r with
        | 'r' :: 'u' :: 'e' :: r2 => some (.bool true, r2)
        | _ => none
      else if c = 'f' then
        match r with
        | 'a' :: 'l' :: 's' :: 'e' :: r2 => some (.bool false, r2)
        | _ => none
      else if c = 'n' then
        match r with
        | 'u' :: 'l' :: 'l' :: r2 => some (.null, r2)
        | _ => none
      else
        (parseIntTok (c :: r)).map (fun p => (Json.num p.1, p.2))

def parseArrItems : Nat → List Char → Option (JArr × List Char)
  | 0, _ => none
  | f + 1, l =>
    match parseVal f l with
    | none => none
    | some (v, r) =>
      match skipWs r with
      | [] => none
      | c :: r2 =>
        if c = ']' then some (.cons v .nil, r2)
        else if c = ',' then
          match parseArrItems f r2 with
          | some (tl, r3) => some (.cons v tl, r3)
          | none => none
        else none

def parseObjItems : Nat → List Char → Option (JObj × List Char)
  | 0, _ => none
  | f + 1, l =>
    match skipWs l with
    | [] => none
    | c :: r =>
      if c = '"' then
        match parseStr r with
        | none => none
        | some (k, r2) =>
          match skipWs r2 with
          | [] => none
          | c2 :: r3 =>
            if c2 = ':' then
              match parseVal f r3 with
              | none => none
              | some (v, r4) =>
                match skipWs r4 with
                | [] => none
                | c3 :: r5 =>
                  if c3 = '}' then some (.cons (String.mk k) v .nil, r5)
                  else if c3 = ',' then
                    match parseObjItems f r5 with
                    | some (tl, r6) => some (.cons (String.mk k) v tl, r6)
                    | none => none
                  else none
            else none
      else none
end

/-- `json.loads` on a character list: parse one value, then require only
whitespace to follow ("Extra data" otherwise). -/
def json_loads_chars (l : List Char) : Option Json :=
  match parseVal (l.length + 2) l with
  | some (v, rest) => if skipWs rest = [] then some v else none
  | none => none

/-- The strict decoder `json.loads`. -/
def json_loads (s : String) : Option Json := json_loads_chars s.data

/-! ## The repair pipeline of `sanitize_and_parse` (lines 66–103) -/

/-- Drop leading Python whitespace. -/
def dropLeadWs : List Char → List Char
  | [] => []
  | c :: r => if isPyWs c then dropLeadWs r else c :: r

/-- Python `str.strip()` (line 74). -/
def pyStrip (l : List Char) : List Char :=
  ((dropLeadWs ((dropLeadWs l).reverse)).reverse)

/-- Length of a leading run of characters satisfying `p`. -/
def countWhile (p : Char → Bool) : List Char → Nat
  | [] => 0
  | c :: r => if p c then countWhile p r + 1 else 0

/-- Length of a match of `\s*\d+\s*:` at the head of the input (`none` if it
does not match there). -/
def matchNumLen (l : List Char) : Option Nat :=
  let n1 := countWhile isPyWs l
  let r1 := l.drop n1
  let n2 := countWhile isDig r1
  if n2 = 0 then none
  else
    let r2 := r1.drop n2
    let n3 := countWhile isPyWs r2
    match r2.drop n3 with
    | ':' :: _ => some (n1 + n2 + n3 + 1)
    | _ => none

/-- Fueled worker for `reSubNumKey` (the fuel, set to the input length,
makes the left-to-right scan structurally recursive). -/
def reSubNumKeyAux (lead : Char) : Nat → List Char → List Char
  | 0, l => l
  | _ + 1, [] => []
  | f + 1, c :: rest =>
    if c = lead then
      match matchNumLen rest with
      | some n => lead :: reSubNumKeyAux lead f (rest.drop n)
      | none => c :: reSubNumKeyAux lead f rest
    else c :: reSubNumKeyAux lead f rest

/-- `re.sub(lead ++ r"\s*\d+\s*:", lead, ·)` — the three numeric-key repairs
of lines 77–79 are this with `lead` equal to `[`, `,` and `{`. -/
def reSubNumKey (lead : Char) (l : List Char) : List Char :=
  reSubNumKeyAux lead l.length l

/-- Quote normalization (lines 82–83): replace every single quote by a double
quote, but only when the text contains a single quote and no double quote in
its first 200 characters. -/
def quoteNorm (t : List Char) : List Char :=
  if '\'' ∈ t ∧ '"' ∉ t.take 200 then
    t.map (fun c => if c = '\'' then '"' else c)
  else t

/-- The text after strip, the three numeric-key substitutions and quote
normalization (lines 74–83), in source order. -/
def repairedText (analysis_raw : String) : List Char :=
  quoteNorm (reSubNumKey '{' (reSubNumKey ',' (reSubNumKey '[' (pyStrip analysis_raw.data))))

/-- `str.find` (first index of `c`; Python's `-1` is `none`). -/
def firstIdx : List Char → Char → Option Nat
  | [], _ => none
  | x :: r, c => if x = c then some 0 else (firstIdx r c).map (· + 1)

/-- `str.rfind` (last index of `c`; Python's `-1` is `none`). -/
def lastIdx (t : List Char) (c : Char) : Option Nat :=
  (firstIdx t.reverse c).map (fun i => t.length - 1 - i)

/-- Python slice `t[s : e+1]`. -/
def sliceIncl (t : List Char) (s e : Nat) : List Char :=
  (t.drop s).take (e + 1 - s)

/-- The object candidate `text[start_obj : end_obj+1]` (lines 86–93): present
exactly when both braces are found and the last `}` is after the first `{`. -/
def objCand (t : List Char) : Option (List Char) :=
  match firstIdx t '{', lastIdx t '}' with
  | some s, some e => if s < e then some (sliceIncl t s e) else none
  | _, _ => none

/-- The array candidate `text[start_arr : end_arr+1]` (lines 88–95). -/
def arrCand (t : List Char) : Option (List Char) :=
  match firstIdx t '[', lastIdx t ']' with
  | some s, some e => if s < e then some (sliceIncl t s e) else none
  | _, _ => none

/-- Boundary extraction (lines 91–95): the object candidate if its condition
holds, `elif` the array candidate. -/
def extractCandidate (t : List Char) : Option (List Char) :=
  match objCand t with
  | some c => some c
  | none => arrCand t

/-- `sanitize_and_parse` (lines 66–103).  Python `None` — the json `null`
value and the "not recoverable" return alike — is `Json.null`. -/
def sanitize_and_parse (analysis_raw : String) : Json :=
  match json_loads analysis_raw with
  | some v => v
  | none =>
    match extractCandidate (repairedText analysis_raw) with
    | some cand =>
      if cand.isEmpty then Json.null
      else
        match json_loads_chars cand with
        | some v => v
        | none => Json.null
    | none => Json.null

/-! ## The serializer: `json.dumps(·, indent=2, ensure_ascii=False)`
(the `pretty_json` value built at line 218) -/

/-- The character of a decimal digit. -/
def digitChar (d : Nat) : Char := Char.ofNat (48 + d)

/-- Fueled decimal printer (fuel `n + 1` always suffices). -/
def natToCharsAux : Nat → Nat → List Char
  | 0, _ => []
  | f + 1, n =>
    if n < 10 then [digitChar n]
    else natToCharsAux f (n / 10) ++ [digitChar (n % 10)]

/-- Decimal representation of a natural number, most significant digit
first (Python `repr` of a nonnegative `int`). -/
def natToChars (n : Nat) : List Char := natToCharsAux (n + 1) n

/-- Python `repr` of an `int`. -/
def intToChars (n : Int) : List Char :=
  if n < 0 then '-' :: natToChars n.natAbs else natToChars n.toNat

/-- Lowercase hex digit. -/
def hexDig (n : Nat) : Char :=
  if n < 10 then Char.ofNat (48 + n) else Char.ofNat (87 + n)

/-- `json.dumps` escaping of one character (`ensure_ascii=False`): quote,
backslash and the named control escapes, `\u00XX` for other control
characters, everything else verbatim. -/
def escChar (c : Char) : List Char :=
  if c = '"' then ['\\', '"']
  else if c = '\\' then ['\\', '\\']
  else if c = '\n' then ['\\', 'n']
  else if c = '\r' then ['\\', 'r']
  else if c = '\t' then ['\\', 't']
  else if c = '\x08' then ['\\', 'b']
  else if c = '\x0c' then ['\\', 'f']
  else if c.toNat < 32 then
    ['\\', 'u', '0', '0', hexDig (c.toNat / 16), hexDig (c.toNat % 16)]
  else [c]

def escChars : List Char → List Char
  | [] => []
  | c :: r => escChar c ++ escChars r

/-- Indentation: `k` levels of two spaces. -/
def pad (k : Nat) : List Char := List.replicate k ' '

mutual
/-- `json.dumps(v, indent=2, ensure_ascii=False)` at indentation level `k`. -/
def render : Nat → Json → List Char
  | _, .null => ['n', 'u', 'l', 'l']
  | _, .bool true => ['t', 'r', 'u', 'e']
  | _, .bool false => ['f', 'a', 'l', 's', 'e']
  | _, .num n => intToChars n
  | _, .str s => '"' :: (escChars s.data ++ ['"'])
  | k, .arr a =>
    match a with
    | .nil => ['[', ']']
    | .cons _ _ => '[' :: '\n' :: (renderA k a ++ '\n' :: (pad (2 * k) ++ [']']))
  | k, .obj o =>
    match o with
    | .nil => ['{', '}']
    | .cons _ _ _ => '{' :: '\n' :: (renderO k o ++ '\n' :: (pad (2 * k) ++ ['}']))

/-- The `,\n`-separated, indented items of a nonempty array. -/
def renderA : Nat → JArr → List Char
  | _, .nil => []
  | k, .cons v tl =>
    pad (2 * (k + 1)) ++ (render (k + 1) v ++
      (match tl with
       | .nil => []
       | .cons _ _ => ',' :: '\n' :: renderA k tl))

/-- The `,\n`-separated, indented `"key": value` members of a nonempty
object. -/
def renderO : Nat → JObj → List Char
  | _, .nil => []
  | k, .cons key v tl =>
    pad (2 * (k + 1)) ++ ('"' :: (escChars key.data ++ ('"' :: ':' :: ' ' ::
      (render (k + 1) v ++
        (match tl with
         | .nil => []
         | .cons _ _ _ => ',' :: '\n' :: renderO k tl)))))
end

/-- `pretty_json` (line 218): the serialized text of a recovered value. -/
def pretty_json (v : Json) : String := String.mk (render 0 v)

/-! ## Fuel adequacy measures for the parser -/

mutual
/-- Fuel sufficient for `parseVal` on a rendering of `v`. -/
def fuelV : Json → Nat
  | .null => 1
  | .bool _ => 1
  | .num _ => 1
  | .str _ => 1
  | .arr a => 2 + fuelA a
  | .obj o => 2 + fuelO o

def fuelA : JArr → Nat
  | .nil => 0
  | .cons v tl => 1 + fuelV v + fuelA tl

def fuelO : JObj → Nat
  | .nil => 0
  | .cons _ v tl => 1 + fuelV v + fuelO tl
end

example : json_loads "\x7b\"a\": 1\x7d" =
    some (Json.obj (JObj.cons "a" (Json.num 1) JObj.nil)) := by rfl

example : pretty_json (Json.arr (JArr.cons (Json.num 1) (JArr.cons Json.null JArr.nil))) =
    "[\n  1,\n  null\n]" := by rfl

example : pretty_json (Json.obj (JObj.cons "a" (Json.str "b\"c") JObj.nil)) =
    "\x7b\n  \"a\": \"b\\\"c\"\n\x7d" := by rfl

example : json_loads "3" = some (Json.num 3) := by rfl

example : json_loads "abc" = none := by rfl

example : sanitize_and_parse "[0:\x7b\"a\":1\x7d]" =
    Json.obj (JObj.cons "a" (Json.num 1) JObj.nil) := by rfl

example : sanitize_and_parse "\x7b'a': 'b'\x7d" =
    Json.obj (JObj.cons "a" (Json.str "b") JObj.nil) := by rfl

example : sanitize_and_parse "Sure, here is the JSON: \x7b\"clauses\": []\x7d Hope that helps!" =
    Json.obj (JObj.cons "clauses" (Json.arr JArr.nil) JObj.nil) := by rfl

example : sanitize_and_parse "{oops} [1]" = Json.null := by rfl

example : sanitize_and_parse "" = Json.null := by rfl

/-! ## Round-trip infrastructure: characters, whitespace, digits -/

theorem toNat_ofNat_valid {n : Nat} (h : n.isValidChar) : (Char.ofNat n).toNat = n := by
  rw [Char.ofNat, dif_pos h]
  rfl

theorem digitChar_toNat {d : Nat} (h : d < 10) : (digitChar d).toNat = 48 + d :=
  toNat_ofNat_valid (Or.inl (by omega))

theorem isDig_digitChar {d : Nat} (h : d < 10) : isDig (digitChar d) = true := by
  simp only [isDig, Bool.and_eq_true, decide_eq_true_eq]
  rw [digitChar_toNat h]
  omega

theorem digitVal_digitChar {d : Nat} (h : d < 10) : digitVal (digitChar d) = d := by
  rw [digitVal, digitChar_toNat h]
  omega

theorem isDig_toNat {c : Char} (h : isDig c = true) : 48 ≤ c.toNat ∧ c.toNat ≤ 57 := by
  simpa [isDig] using h

theorem ne_char_of_toNat {c d : Char} (h : c.toNat ≠ d.toNat) : c ≠ d :=
  fun he => h (he ▸ rfl)

/-- A decimal digit is no JSON whitespace and no JSON punctuation or keyword
head. -/
theorem isDig_not_special {c : Char} (h : isDig c = true) :
    isJsonWs c = false ∧ c ≠ '"' ∧ c ≠ '{' ∧ c ≠ '[' ∧ c ≠ ']' ∧ c ≠ '}' ∧
      c ≠ 't' ∧ c ≠ 'f' ∧ c ≠ 'n' := by
  have hws : isJsonWs c = false := by
    cases hb : isJsonWs c with
    | false => rfl
    | true =>
      simp only [isJsonWs, Bool.or_eq_true, decide_eq_true_eq] at hb
      rcases hb with ((hb | hb) | hb) | hb <;> subst hb <;> exact absurd h (by decide)
  refine ⟨hws, ?_, ?_, ?_, ?_, ?_, ?_, ?_, ?_⟩ <;>
    · intro he
      subst he
      exact absurd h (by decide)

theorem skipWs_cons_not_ws {c : Char} (l : List Char) (h : isJsonWs c = false) :
    skipWs (c :: l) = c :: l := by
  rw [skipWs, if_neg (by simp [h])]

theorem skipWs_append_ws : ∀ (w l : List Char), (∀ c ∈ w, isJsonWs c = true) →
    skipWs (w ++ l) = skipWs l
  | [], l, _ => rfl
  | c :: w, l, h => by
    rw [List.cons_append, skipWs, if_pos (h c (List.mem_cons_self c w))]
    exact skipWs_append_ws w l (fun x hx => h x (List.mem_cons_of_mem c hx))

theorem pad_ws (k : Nat) : ∀ c ∈ pad k, isJsonWs c = true := by
  intro c hc
  rw [pad] at hc
  rw [List.eq_of_mem_replicate hc]
  rfl

theorem ws_append {w1 w2 : List Char} (h1 : ∀ c ∈ w1, isJsonWs c = true)
    (h2 : ∀ c ∈ w2, isJsonWs c = true) : ∀ c ∈ w1 ++ w2, isJsonWs c = true := by
  intro c hc
  rcases List.mem_append.mp hc with hc | hc
  · exact h1 c hc
  · exact h2 c hc

theorem skipWs_into_head {c0 : Char} (w2 rr Y : List Char)
    (hws2 : ∀ c ∈ w2, isJsonWs c = true) (hnws : isJsonWs c0 = false) :
    skipWs (w2 ++ ((c0 :: rr) ++ Y)) = c0 :: (rr ++ Y) := by
  rw [skipWs_append_ws _ _ hws2, List.cons_append]
  exact skipWs_cons_not_ws _ hnws

theorem numDelim_cons_of {c : Char} (X : List Char) (h1 : isDig c = false)
    (h2 : c ≠ '.') (h3 : c ≠ 'e') (h4 : c ≠ 'E') : numDelim (c :: X) = true := by
  simp [numDelim, h1, h2, h3, h4]

/-! ### The decimal printer inverts the digit scanner -/

theorem natToCharsAux_digits : ∀ (f n : Nat), n < f →
    ∀ c ∈ natToCharsAux f n, isDig c = true
  | 0, n, hf => absurd hf (Nat.not_lt_zero n)
  | f + 1, n, _ => by
    rw [natToCharsAux]
    by_cases h10 : n < 10
    · rw [if_pos h10]
      intro c hc
      rw [List.mem_singleton] at hc
      exact hc ▸ isDig_digitChar h10
    · rw [if_neg h10]
      intro c hc
      rcases List.mem_append.mp hc with hc | hc
      · exact natToCharsAux_digits f (n / 10) (by omega) c hc
      · rw [List.mem_singleton] at hc
        exact hc ▸ isDig_digitChar (Nat.mod_lt n (by omega))

theorem natToChars_digits (n : Nat) : ∀ c ∈ natToChars n, isDig c = true :=
  natToCharsAux_digits (n + 1) n (Nat.lt_succ_self n)

theorem natToCharsAux_head : ∀ (f n : Nat), n < f → 1 ≤ n →
    ∃ c r, natToCharsAux f n = c :: r ∧ isDig c = true ∧ c ≠ '0'
  | 0, n, hf, _ => absurd hf (Nat.not_lt_zero n)
  | f + 1, n, hf, h1 => by
    rw [natToCharsAux]
    by_cases h10 : n < 10
    · rw [if_pos h10]
      refine ⟨digitChar n, [], rfl, isDig_digitChar h10, ?_⟩
      intro he
      have h2 : (digitChar n).toNat = 48 + n := digitChar_toNat h10
      rw [he] at h2
      have h3 : ('0').toNat = 48 := rfl
      omega
    · rw [if_neg h10]
      obtain ⟨c, r, he, hd, h0⟩ := natToCharsAux_head f (n / 10) (by omega) (by omega)
      refine ⟨c, r ++ [digitChar (n % 10)], ?_, hd, h0⟩
      rw [he]
      rfl

theorem natToChars_pos {n : Nat} (h : 1 ≤ n) :
    ∃ c r, natToChars n = c :: r ∧ isDig c = true ∧ c ≠ '0' :=
  natToCharsAux_head (n + 1) n (Nat.lt_succ_self n) h

theorem natToCharsAux_foldl : ∀ (f n acc : Nat), n < f →
    List.foldl (fun a c => a * 10 + digitVal c) acc (natToCharsAux f n) =
      acc * 10 ^ (natToCharsAux f n).length + n
  | 0, n, _, hf => absurd hf (Nat.not_lt_zero n)
  | f + 1, n, acc, _ => by
    rw [natToCharsAux]
    by_cases h10 : n < 10
    · rw [if_pos h10]
      rw [List.foldl_cons, List.foldl_nil, List.length_singleton]
      rw [digitVal_digitChar h10, pow_one]
    · rw [if_neg h10]
      rw [List.foldl_append, List.foldl_cons, List.foldl_nil]
      rw [natToCharsAux_foldl f (n / 10) acc (by omega)]
      rw [digitVal_digitChar (Nat.mod_lt n (by omega))]
      rw [List.length_append, List.length_singleton, pow_succ, ← Nat.mul_assoc]
      rw [Nat.add_mul, Nat.add_assoc]
      congr 1
      omega

theorem digitsToNat_natToChars (n : Nat) : digitsToNat (natToChars n) = n := by
  rw [digitsToNat, natToChars, natToCharsAux_foldl (n + 1) n 0 (Nat.lt_succ_self n)]
  simp

/-! ### The number scanner inverts the int printer -/

theorem numDelim_head {c : Char} {r : List Char} (h : numDelim (c :: r) = true) :
    isDig c = false ∧ c ≠ '.' ∧ c ≠ 'e' ∧ c ≠ 'E' := by
  simp only [numDelim, Bool.not_eq_true', Bool.or_eq_false_iff,
    decide_eq_false_iff_not] at h
  exact ⟨h.1.1.1, h.1.1.2, h.1.2, h.2⟩

theorem spanDigits_append : ∀ (ds rest : List Char), (∀ c ∈ ds, isDig c = true) →
    numDelim rest = true → spanDigits (ds ++ rest) = (ds, rest)
  | [], rest, _, hr => by
    cases rest with
    | nil => rfl
    | cons c r =>
      rw [List.nil_append, spanDigits]
      rw [if_neg (by simp [(numDelim_head hr).1])]
  | d :: ds, rest, hd, hr => by
    rw [List.cons_append, spanDigits]
    rw [if_pos (hd d (List.mem_cons_self d ds))]
    simp only [spanDigits_append ds rest (fun c hc => hd c (List.mem_cons_of_mem d hc)) hr]

theorem afterNum_delim (n : Int) (rest : List Char) (h : numDelim rest = true) :
    afterNum n rest = some (n, rest) := by
  cases rest with
  | nil => rfl
  | cons c r =>
    obtain ⟨-, h2, h3, h4⟩ := numDelim_head h
    rw [afterNum, if_neg]
    rintro (hc | hc | hc)
    exacts [h2 hc, h3 hc, h4 hc]

theorem parsePosInt_pos (neg : Bool) (m : Nat) (rest : List Char) (hm : 1 ≤ m)
    (h : numDelim rest = true) :
    parsePosInt neg (natToChars m ++ rest) =
      some (if neg then -(Int.ofNat m) else Int.ofNat m, rest) := by
  obtain ⟨c, r, he, hdg, h0⟩ := natToChars_pos hm
  rw [he, List.cons_append]
  simp only [parsePosInt]
  rw [if_neg h0, if_pos hdg]
  have hq : spanDigits (r ++ rest) = (r, rest) :=
    spanDigits_append r rest
      (fun x hx => natToChars_digits m x (he ▸ List.mem_cons_of_mem c hx)) h
  simp only [hq]
  have hv : digitsToNat (c :: r) = m := by
    rw [← he]
    exact digitsToNat_natToChars m
  rw [hv]
  exact afterNum_delim _ rest h

theorem parseIntTok_intToChars (n : Int) (rest : List Char) (h : numDelim rest = true) :
    parseIntTok (intToChars n ++ rest) = some (n, rest) := by
  rw [intToChars]
  by_cases hneg : n < 0
  · rw [if_pos hneg, List.cons_append]
    simp only [parseIntTok, if_true]
    rw [parsePosInt_pos true n.natAbs rest (by omega) h]
    have hval : (if (true : Bool) then -(Int.ofNat n.natAbs) else Int.ofNat n.natAbs) = n := by
      show -(Int.ofNat n.natAbs) = n
      simp only [Int.ofNat_eq_natCast]
      omega
    rw [hval]
  · rw [if_neg hneg]
    rcases Nat.eq_zero_or_pos n.toNat with h0 | hpos
    · have hn0 : n = 0 := by omega
      subst hn0
      show afterNum 0 rest = some (0, rest)
      exact afterNum_delim 0 rest h
    · obtain ⟨c, r, he, hdg, h0⟩ := natToChars_pos hpos
      rw [he, List.cons_append]
      simp only [parseIntTok]
      rw [if_neg (ne_char_of_toNat (by
        have h45 : ('-').toNat = 45 := rfl
        have := isDig_toNat hdg
        omega))]
      rw [← List.cons_append, ← he]
      rw [parsePosInt_pos false n.toNat rest hpos h]
      have hval : (if (false : Bool) then -(Int.ofNat n.toNat) else Int.ofNat n.toNat) = n := by
        show Int.ofNat n.toNat = n
        simp only [Int.ofNat_eq_natCast]
        omega
      rw [hval]

/-! ### The string scanner inverts the escaper -/

theorem hexVal?_hexDig {m : Nat} (h : m < 16) : hexVal? (hexDig m) = some m := by
  rw [hexDig]
  by_cases h10 : m < 10
  · rw [if_pos h10, hexVal?]
    rw [toNat_ofNat_valid (Or.inl (by omega))]
    rw [if_pos ⟨by omega, by omega⟩]
    exact congrArg some (by omega)
  · rw [if_neg h10, hexVal?]
    rw [toNat_ofNat_valid (Or.inl (by omega))]
    rw [if_neg (by omega), if_pos ⟨by omega, by omega⟩]
    exact congrArg some (by omega)

theorem parseStrF_plain (f : Nat) (c : Char) (X : List Char) (h1 : c ≠ '"')
    (h2 : c ≠ '\\') (h3 : ¬ c.toNat < 32) :
    parseStrF (f + 1) (c :: X) = pushChar c (parseStrF f X) := by
  simp only [parseStrF]
  rw [if_neg h1, if_neg h2, if_neg h3]

theorem parseStrF_u (f : Nat) (a b : Char) (X : List Char) (va vb : Nat)
    (ha : hexVal? a = some va) (hb : hexVal? b = some vb)
    (hcode : ((0 * 16 + 0) * 16 + va) * 16 + vb < 0xd800) :
    parseStrF (f + 1) ('\\' :: 'u' :: '0' :: '0' :: a :: b :: X) =
      pushChar (Char.ofNat (((0 * 16 + 0) * 16 + va) * 16 + vb)) (parseStrF f X) := by
  have h0 : hexVal? '0' = some 0 := rfl
  simp only [parseStrF, h0, ha, hb]
  rw [if_pos (Or.inl hcode)]
  rfl

theorem parseStrF_escChars : ∀ (s rest : List Char) (f : Nat),
    (escChars s).length < f →
    parseStrF f (escChars s ++ ('"' :: rest)) = some (s, rest)
  | [], rest, f, hf => by
    cases f with
    | zero => omega
    | succ f1 =>
      rw [escChars, List.nil_append]
      rfl
  | c :: cs, rest, f, hf => by
    cases f with
    | zero => omega
    | succ f1 =>
      rw [escChars, List.length_append] at hf
      rw [escChars, List.append_assoc, escChar]
      by_cases h1 : c = '"'
      · subst h1
        rw [if_pos rfl]
        show pushChar '"' (parseStrF f1 (escChars cs ++ ('"' :: rest))) = _
        rw [parseStrF_escChars cs rest f1 (by
          have h2 : (escChar '"').length = 2 := rfl
          omega)]
        rfl
      · rw [if_neg h1]
        by_cases h2 : c = '\\'
        · subst h2
          rw [if_pos rfl]
          show pushChar '\\' (parseStrF f1 (escChars cs ++ ('"' :: rest))) = _
          rw [parseStrF_escChars cs rest f1 (by
            have h3 : (escChar '\\').length = 2 := rfl
            omega)]
          rfl
        · rw [if_neg h2]
          by_cases h3 : c = '\n'
          · subst h3
            rw [if_pos rfl]
            show pushChar '\n' (parseStrF f1 (escChars cs ++ ('"' :: rest))) = _
            rw [parseStrF_escChars cs rest f1 (by
              have h4 : (escChar '\n').length = 2 := rfl
              omega)]
            rfl
          · rw [if_neg h3]
            by_cases h4 : c = '\r'
            · subst h4
              rw [if_pos rfl]
              show pushChar '\r' (parseStrF f1 (escChars cs ++ ('"' :: rest))) = _
              rw [parseStrF_escChars cs rest f1 (by
                have h5 : (escChar '\r').length = 2 := rfl
                omega)]
              rfl
            · rw [if_neg h4]
              by_cases h5 : c = '\t'
              · subst h5
                rw [if_pos rfl]
                show pushChar '\t' (parseStrF f1 (escChars cs ++ ('"' :: rest))) = _
                rw [parseStrF_escChars cs rest f1 (by
                  have h6 : (escChar '\t').length = 2 := rfl
                  omega)]
                rfl
              · rw [if_neg h5]
                by_cases h6 : c = '\x08'
                · subst h6
                  rw [if_pos rfl]
                  show pushChar '\x08' (parseStrF f1 (escChars cs ++ ('"' :: rest))) = _
                  rw [parseStrF_escChars cs rest f1 (by
                    have h7 : (escChar '\x08').length = 2 := rfl
                    omega)]
                  rfl
                · rw [if_neg h6]
                  by_cases h7 : c = '\x0c'
                  · subst h7
                    rw [if_pos rfl]
                    show pushChar '\x0c' (parseStrF f1 (escChars cs ++ ('"' :: rest))) = _
                    rw [parseStrF_escChars cs rest f1 (by
                      have h8 : (escChar '\x0c').length = 2 := rfl
                      omega)]
                    rfl
                  · rw [if_neg h7]
                    by_cases hlt : c.toNat < 32
                    · rw [if_pos hlt]
                      have h6l : (escChar c).length = 6 := by
                        rw [escChar, if_neg h1, if_neg h2, if_neg h3, if_neg h4,
                          if_neg h5, if_neg h6, if_neg h7, if_pos hlt]
                        rfl
                      show parseStrF (f1 + 1) ('\\' :: 'u' :: '0' :: '0' ::
                        hexDig (c.toNat / 16) :: hexDig (c.toNat % 16) ::
                        (escChars cs ++ ('"' :: rest))) = _
                      rw [parseStrF_u f1 _ _ _ (c.toNat / 16) (c.toNat % 16)
                        (hexVal?_hexDig (by omega)) (hexVal?_hexDig (by omega)) (by omega)]
                      have hc : ((0 * 16 + 0) * 16 + c.toNat / 16) * 16 + c.toNat % 16 =
                          c.toNat := by
                        omega
                      rw [hc, Char.ofNat_toNat, parseStrF_escChars cs rest f1 (by omega)]
                      rfl
                    · rw [if_neg hlt]
                      have h1l : (escChar c).length = 1 := by
                        rw [escChar, if_neg h1, if_neg h2, if_neg h3, if_neg h4,
                          if_neg h5, if_neg h6, if_neg h7, if_neg hlt]
                        rfl
                      show parseStrF (f1 + 1) (c :: (escChars cs ++ ('"' :: rest))) = _
                      rw [parseStrF_plain f1 c _ h1 h2 hlt,
                        parseStrF_escChars cs rest f1 (by omega)]
                      rfl

theorem parseStr_escChars (s rest : List Char) :
    parseStr (escChars s ++ ('"' :: rest)) = some (s, rest) := by
  rw [parseStr]
  apply parseStrF_escChars
  rw [List.length_append]
  omega

/-! ### Parser step lemmas (the branch taken on rendered text) -/

theorem parseVal_step_null (f : Nat) (l rest : List Char)
    (h : skipWs l = 'n' :: ('u' :: 'l' :: 'l' :: rest)) :
    parseVal (f + 1) l = some (Json.null, rest) := by
  simp only [parseVal, h]
  rfl

theorem parseVal_step_true (f : Nat) (l rest : List Char)
    (h : skipWs l = 't' :: ('r' :: 'u' :: 'e' :: rest)) :
    parseVal (f + 1) l = some (Json.bool true, rest) := by
  simp only [parseVal, h]
  rfl

theorem parseVal_step_false (f : Nat) (l rest : List Char)
    (h : skipWs l = 'f' :: ('a' :: 'l' :: 's' :: 'e' :: rest)) :
    parseVal (f + 1) l = some (Json.bool false, rest) := by
  simp only [parseVal, h]
  rfl

theorem parseVal_step_str (f : Nat) (l r : List Char) (h : skipWs l = '"' :: r) :
    parseVal (f + 1) l = (parseStr r).map (fun p => (Json.str (String.mk p.1), p.2)) := by
  simp only [parseVal, h]
  rfl

theorem parseVal_step_num (f : Nat) (l : List Char) (c : Char) (r : List Char)
    (h : skipWs l = c :: r) (h1 : c ≠ '{') (h2 : c ≠ '[') (h3 : c ≠ '"')
    (h4 : c ≠ 't') (h5 : c ≠ 'f') (h6 : c ≠ 'n') :
    parseVal (f + 1) l = (parseIntTok (c :: r)).map (fun p => (Json.num p.1, p.2)) := by
  simp only [parseVal, h]
  rw [if_neg h1, if_neg h2, if_neg h3, if_neg h4, if_neg h5, if_neg h6]

theorem parseVal_step_arr_empty (f : Nat) (l r r2 : List Char)
    (h : skipWs l = '[' :: r) (h2 : skipWs r = ']' :: r2) :
    parseVal (f + 1) l = some (Json.arr JArr.nil, r2) := by
  simp only [parseVal, h, h2]
  rfl

theorem parseVal_step_arr (f : Nat) (l r : List Char) (c2 : Char) (r2 : List Char)
    (h : skipWs l = '[' :: r) (h2 : skipWs r = c2 :: r2) (hne : c2 ≠ ']') :
    parseVal (f + 1) l = (parseArrItems f r).map (fun p => (Json.arr p.1, p.2)) := by
  simp only [parseVal, h, h2, if_true]
  rw [if_neg hne]
  rfl

theorem parseVal_step_obj_empty (f : Nat) (l r r2 : List Char)
    (h : skipWs l = '{' :: r) (h2 : skipWs r = '}' :: r2) :
    parseVal (f + 1) l = some (Json.obj JObj.nil, r2) := by
  simp only [parseVal, h, h2]
  rfl

theorem parseVal_step_obj (f : Nat) (l r : List Char) (c2 : Char) (r2 : List Char)
    (h : skipWs l = '{' :: r) (h2 : skipWs r = c2 :: r2) (hne : c2 ≠ '}') :
    parseVal (f + 1) l = (parseObjItems f r).map (fun p => (Json.obj p.1, p.2)) := by
  simp only [parseVal, h, h2, if_true]
  rw [if_neg hne]

theorem parseArrItems_step_close (f : Nat) (l : List Char) (v : Json) (r r2 : List Char)
    (hv : parseVal f l = some (v, r)) (h2 : skipWs r = ']' :: r2) :
    parseArrItems (f + 1) l = some (JArr.cons v JArr.nil, r2) := by
  simp only [parseArrItems, hv, h2]
  rfl

theorem parseArrItems_step_comma (f : Nat) (l : List Char) (v : Json) (r r2 : List Char)
    (hv : parseVal f l = some (v, r)) (h2 : skipWs r = ',' :: r2) :
    parseArrItems (f + 1) l =
      (parseArrItems f r2).map (fun p => (JArr.cons v p.1, p.2)) := by
  simp only [parseArrItems, hv, h2, if_true]
  cases parseArrItems f r2 with
  | none => rfl
  | some p =>
    obtain ⟨tl, r3⟩ := p
    rfl

theorem parseObjItems_step_close (f : Nat) (l r ks r2 r3 : List Char)
    (v : Json) (r4 r5 : List Char)
    (h0 : skipWs l = '"' :: r) (h1 : parseStr r = some (ks, r2))
    (h2 : skipWs r2 = ':' :: r3) (h3 : parseVal f r3 = some (v, r4))
    (h4 : skipWs r4 = '}' :: r5) :
    parseObjItems (f + 1) l = some (JObj.cons (String.mk ks) v JObj.nil, r5) := by
  simp only [parseObjItems, h0, h1, h2, h3, h4]
  rfl

theorem parseObjItems_step_comma (f : Nat) (l r ks r2 r3 : List Char)
    (v : Json) (r4 r5 : List Char)
    (h0 : skipWs l = '"' :: r) (h1 : parseStr r = some (ks, r2))
    (h2 : skipWs r2 = ':' :: r3) (h3 : parseVal f r3 = some (v, r4))
    (h4 : skipWs r4 = ',' :: r5) :
    parseObjItems (f + 1) l =
      (parseObjItems f r5).map (fun p => (JObj.cons (String.mk ks) v p.1, p.2)) := by
  simp only [parseObjItems, h0, h1, h2, h3, h4, if_true]
  cases parseObjItems f r5 with
  | none => rfl
  | some p =>
    obtain ⟨tl, r6⟩ := p
    rfl

/-! ### Shape of rendered text -/

theorem renderA_cons_shape (k : Nat) (v : Json) (tl : JArr) :
    ∃ S, renderA k (JArr.cons v tl) = pad (2 * (k + 1)) ++ (render (k + 1) v ++ S) := by
  cases tl with
  | nil => exact ⟨[], rfl⟩
  | cons v2 tl2 => exact ⟨',' :: '\n' :: renderA k (JArr.cons v2 tl2), rfl⟩

theorem renderO_cons_shape (k : Nat) (key : String) (v : Json) (tl : JObj) :
    ∃ S, renderO k (JObj.cons key v tl) =
      pad (2 * (k + 1)) ++ ('"' :: (escChars key.data ++ ('"' :: ':' :: ' ' ::
        (render (k + 1) v ++ S)))) := by
  cases tl with
  | nil => exact ⟨[], rfl⟩
  | cons k2 v2 tl2 => exact ⟨',' :: '\n' :: renderO k (JObj.cons k2 v2 tl2), rfl⟩

theorem intToChars_shape (n : Int) :
    ∃ c r, intToChars n = c :: r ∧ isJsonWs c = false ∧ c ≠ '{' ∧ c ≠ '[' ∧ c ≠ '"' ∧
      c ≠ 't' ∧ c ≠ 'f' ∧ c ≠ 'n' ∧ c ≠ ']' ∧ c ≠ '}' := by
  rw [intToChars]
  by_cases hneg : n < 0
  · rw [if_pos hneg]
    exact ⟨'-', _, rfl, by decide, by decide, by decide, by decide, by decide, by decide,
      by decide, by decide, by decide⟩
  · rw [if_neg hneg]
    rcases Nat.eq_zero_or_pos n.toNat with h0 | hpos
    · rw [h0]
      exact ⟨'0', [], rfl, by decide, by decide, by decide, by decide, by decide, by decide,
        by decide, by decide, by decide⟩
    · obtain ⟨c, r, he, hdg, -⟩ := natToChars_pos hpos
      obtain ⟨hws, hq, hbl, hbr, hrb, hrr, ht, hf, hn⟩ := isDig_not_special hdg
      exact ⟨c, r, he, hws, hbl, hbr, hq, ht, hf, hn, hrb, hrr⟩

/-- Rendered text begins with a non-whitespace character that closes no
container. -/
theorem render_head (k : Nat) (v : Json) :
    ∃ c r, render k v = c :: r ∧ isJsonWs c = false ∧ c ≠ ']' ∧ c ≠ '}' := by
  cases v with
  | null => exact ⟨'n', _, rfl, by decide, by decide, by decide⟩
  | bool b =>
    cases b with
    | false => exact ⟨'f', _, rfl, by decide, by decide, by decide⟩
    | true => exact ⟨'t', _, rfl, by decide, by decide, by decide⟩
  | num n =>
    obtain ⟨c, r, he, hws, _, _, _, _, _, _, h7, h8⟩ := intToChars_shape n
    exact ⟨c, r, he, hws, h7, h8⟩
  | str s => exact ⟨'"', _, rfl, by decide, by decide, by decide⟩
  | arr a =>
    cases a with
    | nil => exact ⟨'[', _, rfl, by decide, by decide, by decide⟩
    | cons v tl => exact ⟨'[', _, rfl, by decide, by decide, by decide⟩
  | obj o =>
    cases o with
    | nil => exact ⟨'{', _, rfl, by decide, by decide, by decide⟩
    | cons key v tl => exact ⟨'{', _, rfl, by decide, by decide, by decide⟩

theorem skipWs_nl_pad (k : Nat) (c : Char) (X : List Char) (h : isJsonWs c = false) :
    skipWs ('\n' :: (pad k ++ (c :: X))) = c :: X := by
  rw [show ('\n' :: (pad k ++ (c :: X)) : List Char) = ('\n' :: pad k) ++ (c :: X) from
    by rw [List.cons_append]]
  rw [skipWs_append_ws _ _ (by
    intro x hx
    rcases List.mem_cons.mp hx with hx | hx
    · subst hx; decide
    · exact pad_ws _ x hx)]
  exact skipWs_cons_not_ws _ h

theorem nl_ws : ∀ c ∈ ['\n'], isJsonWs c = true := by decide

theorem nl_pad_ws (k : Nat) : ∀ c ∈ '\n' :: pad k, isJsonWs c = true := by
  intro x hx
  rcases List.mem_cons.mp hx with hx | hx
  · subst hx; decide
  · exact pad_ws _ x hx

/-! ### The parser inverts the renderer -/

mutual
theorem val_ok : ∀ (v : Json) (f k : Nat) (w rest : List Char),
    (∀ c ∈ w, isJsonWs c = true) → fuelV v ≤ f → numDelim rest = true →
    parseVal f (w ++ (render k v ++ rest)) = some (v, rest)
  | .null, f, k, w, rest, hw, hf, _ => by
    cases f with
    | zero => simp [fuelV] at hf
    | succ f1 =>
      have hs : skipWs (w ++ (render k Json.null ++ rest)) =
          'n' :: ('u' :: 'l' :: 'l' :: rest) := by
        rw [skipWs_append_ws w _ hw]
        exact skipWs_cons_not_ws _ (by decide)
      exact parseVal_step_null f1 _ rest hs
  | .bool true, f, k, w, rest, hw, hf, _ => by
    cases f with
    | zero => simp [fuelV] at hf
    | succ f1 =>
      have hs : skipWs (w ++ (render k (Json.bool true) ++ rest)) =
          't' :: ('r' :: 'u' :: 'e' :: rest) := by
        rw [skipWs_append_ws w _ hw]
        exact skipWs_cons_not_ws _ (by decide)
      exact parseVal_step_true f1 _ rest hs
  | .bool false, f, k, w, rest, hw, hf, _ => by
    cases f with
    | zero => simp [fuelV] at hf
    | succ f1 =>
      have hs : skipWs (w ++ (render k (Json.bool false) ++ rest)) =
          'f' :: ('a' :: 'l' :: 's' :: 'e' :: rest) := by
        rw [skipWs_append_ws w _ hw]
        exact skipWs_cons_not_ws _ (by decide)
      exact parseVal_step_false f1 _ rest hs
  | .num n, f, k, w, rest, hw, hf, hd => by
    cases f with
    | zero => simp [fuelV] at hf
    | succ f1 =>
      obtain ⟨c, r0, he, hws, h1, h2, h3, h4, h5, h6, -, -⟩ := intToChars_shape n
      have hs : skipWs (w ++ (render k (Json.num n) ++ rest)) = c :: (r0 ++ rest) := by
        rw [skipWs_append_ws w _ hw]
        rw [show render k (Json.num n) = intToChars n from rfl, he, List.cons_append]
        exact skipWs_cons_not_ws _ hws
      rw [parseVal_step_num f1 _ c (r0 ++ rest) hs h1 h2 h3 h4 h5 h6]
      rw [show (c :: (r0 ++ rest) : List Char) = intToChars n ++ rest by
        rw [he, List.cons_append]]
      rw [parseIntTok_intToChars n rest hd]
      rfl
  | .str s, f, k, w, rest, hw, hf, _ => by
    cases f with
    | zero => simp [fuelV] at hf
    | succ f1 =>
      have hs : skipWs (w ++ (render k (Json.str s) ++ rest)) =
          '"' :: (escChars s.data ++ ('"' :: rest)) := by
        rw [skipWs_append_ws w _ hw]
        rw [show render k (Json.str s) ++ rest =
            '"' :: (escChars s.data ++ ('"' :: rest)) by
          show ('"' :: (escChars s.data ++ ['"'])) ++ rest = _
          simp [List.cons_append, List.append_assoc]]
        exact skipWs_cons_not_ws _ (by decide)
      rw [parseVal_step_str f1 _ _ hs, parseStr_escChars s.data rest]
      rfl
  | .arr .nil, f, k, w, rest, hw, hf, _ => by
    cases f with
    | zero => simp [fuelV] at hf
    | succ f1 =>
      have hs : skipWs (w ++ (render k (Json.arr JArr.nil) ++ rest)) =
          '[' :: (']' :: rest) := by
        rw [skipWs_append_ws w _ hw]
        exact skipWs_cons_not_ws _ (by decide)
      exact parseVal_step_arr_empty f1 _ _ rest hs (skipWs_cons_not_ws _ (by decide))
  | .arr (.cons v tl), f, k, w, rest, hw, hf, _ => by
    cases f with
    | zero => simp [fuelV] at hf
    | succ f1 =>
      simp only [fuelV, fuelA] at hf
      have hf' : 1 + fuelV v + fuelA tl ≤ f1 := by omega
      obtain ⟨S, hA⟩ := renderA_cons_shape k v tl
      obtain ⟨c0, rr, hh, hnws, hne, -⟩ := render_head (k + 1) v
      have hs : skipWs (w ++ (render k (Json.arr (JArr.cons v tl)) ++ rest)) =
          '[' :: ('\n' :: (renderA k (JArr.cons v tl) ++
            ('\n' :: (pad (2 * k) ++ (']' :: rest))))) := by
        rw [skipWs_append_ws w _ hw]
        rw [show render k (Json.arr (JArr.cons v tl)) ++ rest =
            '[' :: ('\n' :: (renderA k (JArr.cons v tl) ++
              ('\n' :: (pad (2 * k) ++ (']' :: rest))))) by
          show ('[' :: '\n' :: (renderA k (JArr.cons v tl) ++
            '\n' :: (pad (2 * k) ++ [']']))) ++ rest = _
          simp [List.cons_append, List.append_assoc]]
        exact skipWs_cons_not_ws _ (by decide)
      have hs2 : skipWs ('\n' :: (renderA k (JArr.cons v tl) ++
          ('\n' :: (pad (2 * k) ++ (']' :: rest))))) =
          c0 :: (rr ++ (S ++ ('\n' :: (pad (2 * k) ++ (']' :: rest))))) := by
        rw [show ('\n' :: (renderA k (JArr.cons v tl) ++
            ('\n' :: (pad (2 * k) ++ (']' :: rest)))) : List Char) =
            ('\n' :: pad (2 * (k + 1))) ++
              ((c0 :: rr) ++ (S ++ ('\n' :: (pad (2 * k) ++ (']' :: rest))))) by
          rw [hA, hh]
          simp [List.cons_append, List.append_assoc]]
        exact skipWs_into_head _ _ _ (nl_pad_ws _) hnws
      rw [parseVal_step_arr f1 _ _ c0 _ hs hs2 hne]
      rw [show ('\n' :: (renderA k (JArr.cons v tl) ++
          ('\n' :: (pad (2 * k) ++ (']' :: rest)))) : List Char) =
          ['\n'] ++ (renderA k (JArr.cons v tl) ++
            ('\n' :: (pad (2 * k) ++ (']' :: rest)))) from rfl]
      rw [arrItems_ok tl v f1 k ['\n'] rest nl_ws hf']
      rfl
  | .obj .nil, f, k, w, rest, hw, hf, _ => by
    cases f with
    | zero => simp [fuelV] at hf
    | succ f1 =>
      have hs : skipWs (w ++ (render k (Json.obj JObj.nil) ++ rest)) =
          '{' :: ('}' :: rest) := by
        rw [skipWs_append_ws w _ hw]
        exact skipWs_cons_not_ws _ (by decide)
      exact parseVal_step_obj_empty f1 _ _ rest hs (skipWs_cons_not_ws _ (by decide))
  | .obj (.cons key v tl), f, k, w, rest, hw, hf, _ => by
    cases f with
    | zero => simp [fuelV] at hf
    | succ f1 =>
      simp only [fuelV, fuelO] at hf
      have hf' : 1 + fuelV v + fuelO tl ≤ f1 := by omega
      have hs : skipWs (w ++ (render k (Json.obj (JObj.cons key v tl)) ++ rest)) =
          '{' :: ('\n' :: (renderO k (JObj.cons key v tl) ++
            ('\n' :: (pad (2 * k) ++ ('}' :: rest))))) := by
        rw [skipWs_append_ws w _ hw]
        rw [show render k (Json.obj (JObj.cons key v tl)) ++ rest =
            '{' :: ('\n' :: (renderO k (JObj.cons key v tl) ++
              ('\n' :: (pad (2 * k) ++ ('}' :: rest))))) by
          show ('{' :: '\n' :: (renderO k (JObj.cons key v tl) ++
            '\n' :: (pad (2 * k) ++ ['}']))) ++ rest = _
          simp [List.cons_append, List.append_assoc]]
        exact skipWs_cons_not_ws _ (by decide)
      obtain ⟨S, hO⟩ := renderO_cons_shape k key v tl
      have hs2 : skipWs ('\n' :: (renderO k (JObj.cons key v tl) ++
          ('\n' :: (pad (2 * k) ++ ('}' :: rest))))) =
          '"' :: (escChars key.data ++ ('"' :: ':' :: ' ' ::
            (render (k + 1) v ++ (S ++ ('\n' :: (pad (2 * k) ++ ('}' :: rest))))))) := by
        rw [show ('\n' :: (renderO k (JObj.cons key v tl) ++
            ('\n' :: (pad (2 * k) ++ ('}' :: rest)))) : List Char) =
            ('\n' :: pad (2 * (k + 1))) ++
              (('"' :: (escChars key.data ++ ('"' :: ':' :: ' ' ::
                (render (k + 1) v ++ (S ++ ('\n' :: (pad (2 * k) ++ ('}' :: rest)))))))) ++ []) by
          rw [hO]
          simp [List.cons_append, List.append_assoc]]
        rw [skipWs_append_ws _ _ (nl_pad_ws _), List.append_nil]
        exact skipWs_cons_not_ws _ (by decide)
      rw [parseVal_step_obj f1 _ _ '"' _ hs hs2 (by decide)]
      rw [show ('\n' :: (renderO k (JObj.cons key v tl) ++
          ('\n' :: (pad (2 * k) ++ ('}' :: rest)))) : List Char) =
          ['\n'] ++ (renderO k (JObj.cons key v tl) ++
            ('\n' :: (pad (2 * k) ++ ('}' :: rest)))) from rfl]
      rw [objItems_ok tl key v f1 k ['\n'] rest nl_ws hf']
      rfl
  termination_by v => sizeOf v

theorem arrItems_ok : ∀ (tl : JArr) (v : Json) (f k : Nat) (w rest : List Char),
    (∀ c ∈ w, isJsonWs c = true) → 1 + fuelV v + fuelA tl ≤ f →
    parseArrItems f (w ++ (renderA k (JArr.cons v tl) ++
      ('\n' :: (pad (2 * k) ++ (']' :: rest))))) = some (JArr.cons v tl, rest)
  | .nil, v, f, k, w, rest, hw, hf => by
    cases f with
    | zero => omega
    | succ f1 =>
      simp only [fuelA] at hf
      have hfv : fuelV v ≤ f1 := by omega
      have hshape : w ++ (renderA k (JArr.cons v JArr.nil) ++
          ('\n' :: (pad (2 * k) ++ (']' :: rest)))) =
          (w ++ pad (2 * (k + 1))) ++ (render (k + 1) v ++
            ('\n' :: (pad (2 * k) ++ (']' :: rest)))) := by
        rw [show renderA k (JArr.cons v JArr.nil) =
            pad (2 * (k + 1)) ++ (render (k + 1) v ++ []) from rfl]
        simp [List.append_assoc]
      rw [hshape]
      have hval := val_ok v f1 (k + 1) (w ++ pad (2 * (k + 1)))
        ('\n' :: (pad (2 * k) ++ (']' :: rest)))
        (ws_append hw (pad_ws _)) hfv
        (numDelim_cons_of _ (by decide) (by decide) (by decide) (by decide))
      exact parseArrItems_step_close f1 _ v _ rest hval
        (skipWs_nl_pad (2 * k) ']' rest (by decide))
  | .cons v2 tl2, v, f, k, w, rest, hw, hf => by
    cases f with
    | zero => omega
    | succ f1 =>
      simp only [fuelA] at hf
      have hfv : fuelV v ≤ f1 := by omega
      have hfr : 1 + fuelV v2 + fuelA tl2 ≤ f1 := by omega
      have hshape : w ++ (renderA k (JArr.cons v (JArr.cons v2 tl2)) ++
          ('\n' :: (pad (2 * k) ++ (']' :: rest)))) =
          (w ++ pad (2 * (k + 1))) ++ (render (k + 1) v ++
            (',' :: ('\n' :: (renderA k (JArr.cons v2 tl2) ++
              ('\n' :: (pad (2 * k) ++ (']' :: rest))))))) := by
        rw [show renderA k (JArr.cons v (JArr.cons v2 tl2)) =
            pad (2 * (k + 1)) ++ (render (k + 1) v ++
              (',' :: '\n' :: renderA k (JArr.cons v2 tl2))) from rfl]
        simp [List.cons_append, List.append_assoc]
      rw [hshape]
      have hval := val_ok v f1 (k + 1) (w ++ pad (2 * (k + 1)))
        (',' :: ('\n' :: (renderA k (JArr.cons v2 tl2) ++
          ('\n' :: (pad (2 * k) ++ (']' :: rest))))))
        (ws_append hw (pad_ws _)) hfv
        (numDelim_cons_of _ (by decide) (by decide) (by decide) (by decide))
      rw [parseArrItems_step_comma f1 _ v _ _ hval (skipWs_cons_not_ws _ (by decide))]
      rw [show ('\n' :: (renderA k (JArr.cons v2 tl2) ++
          ('\n' :: (pad (2 * k) ++ (']' :: rest)))) : List Char) =
          ['\n'] ++ (renderA k (JArr.cons v2 tl2) ++
            ('\n' :: (pad (2 * k) ++ (']' :: rest)))) from rfl]
      rw [arrItems_ok tl2 v2 f1 k ['\n'] rest nl_ws hfr]
      rfl
  termination_by tl v => sizeOf v + sizeOf tl

theorem objItems_ok : ∀ (tl : JObj) (key : String) (v : Json) (f k : Nat)
    (w rest : List Char),
    (∀ c ∈ w, isJsonWs c = true) → 1 + fuelV v + fuelO tl ≤ f →
    parseObjItems f (w ++ (renderO k (JObj.cons key v tl) ++
      ('\n' :: (pad (2 * k) ++ ('}' :: rest))))) = some (JObj.cons key v tl, rest)
  | .nil, key, v, f, k, w, rest, hw, hf => by
    cases f with
    | zero => omega
    | succ f1 =>
      simp only [fuelO] at hf
      have hfv : fuelV v ≤ f1 := by omega
      have hshape : w ++ (renderO k (JObj.cons key v JObj.nil) ++
          ('\n' :: (pad (2 * k) ++ ('}' :: rest)))) =
          (w ++ pad (2 * (k + 1))) ++ ('"' :: (escChars key.data ++
            ('"' :: (':' :: (' ' :: (render (k + 1) v ++
              ('\n' :: (pad (2 * k) ++ ('}' :: rest))))))))) := by
        rw [show renderO k (JObj.cons key v JObj.nil) =
            pad (2 * (k + 1)) ++ ('"' :: (escChars key.data ++ ('"' :: ':' :: ' ' ::
              (render (k + 1) v ++ [])))) from rfl]
        simp [List.cons_append, List.append_assoc]
      rw [hshape]
      have h0 : skipWs ((w ++ pad (2 * (k + 1))) ++ ('"' :: (escChars key.data ++
          ('"' :: (':' :: (' ' :: (render (k + 1) v ++
            ('\n' :: (pad (2 * k) ++ ('}' :: rest)))))))))) =
          '"' :: (escChars key.data ++ ('"' :: (':' :: (' ' :: (render (k + 1) v ++
            ('\n' :: (pad (2 * k) ++ ('}' :: rest)))))))) := by
        rw [skipWs_append_ws _ _ (ws_append hw (pad_ws _))]
        exact skipWs_cons_not_ws _ (by decide)
      have h1 : parseStr (escChars key.data ++ ('"' :: (':' :: (' ' ::
          (render (k + 1) v ++ ('\n' :: (pad (2 * k) ++ ('}' :: rest)))))))) =
          some (key.data, ':' :: (' ' :: (render (k + 1) v ++
            ('\n' :: (pad (2 * k) ++ ('}' :: rest)))))) :=
        parseStr_escChars key.data _
      have h3 : parseVal f1 (' ' :: (render (k + 1) v ++
          ('\n' :: (pad (2 * k) ++ ('}' :: rest))))) =
          some (v, '\n' :: (pad (2 * k) ++ ('}' :: rest))) := by
        have := val_ok v f1 (k + 1) [' '] ('\n' :: (pad (2 * k) ++ ('}' :: rest)))
          (by decide) hfv
          (numDelim_cons_of _ (by decide) (by decide) (by decide) (by decide))
        exact this
      exact parseObjItems_step_close f1 _ _ _ _ _ v _ rest h0 h1
        (skipWs_cons_not_ws _ (by decide)) h3
        (skipWs_nl_pad (2 * k) '}' rest (by decide))
  | .cons key2 v2 tl2, key, v, f, k, w, rest, hw, hf => by
    cases f with
    | zero => omega
    | succ f1 =>
      simp only [fuelO] at hf
      have hfv : fuelV v ≤ f1 := by omega
      have hfr : 1 + fuelV v2 + fuelO tl2 ≤ f1 := by omega
      have hshape : w ++ (renderO k (JObj.cons key v (JObj.cons key2 v2 tl2)) ++
          ('\n' :: (pad (2 * k) ++ ('}' :: rest)))) =
          (w ++ pad (2 * (k + 1))) ++ ('"' :: (escChars key.data ++
            ('"' :: (':' :: (' ' :: (render (k + 1) v ++
              (',' :: ('\n' :: (renderO k (JObj.cons key2 v2 tl2) ++
                ('\n' :: (pad (2 * k) ++ ('}' :: rest)))))))))))) := by
        rw [show renderO k (JObj.cons key v (JObj.cons key2 v2 tl2)) =
            pad (2 * (k + 1)) ++ ('"' :: (escChars key.data ++ ('"' :: ':' :: ' ' ::
              (render (k + 1) v ++
                (',' :: '\n' :: renderO k (JObj.cons key2 v2 tl2)))))) from rfl]
        simp [List.cons_append, List.append_assoc]
      rw [hshape]
      have h0 : skipWs ((w ++ pad (2 * (k + 1))) ++ ('"' :: (escChars key.data ++
          ('"' :: (':' :: (' ' :: (render (k + 1) v ++
            (',' :: ('\n' :: (renderO k (JObj.cons key2 v2 tl2) ++
              ('\n' :: (pad (2 * k) ++ ('}' :: rest))))))))))))) =
          '"' :: (escChars key.data ++ ('"' :: (':' :: (' ' :: (render (k + 1) v ++
            (',' :: ('\n' :: (renderO k (JObj.cons key2 v2 tl2) ++
              ('\n' :: (pad (2 * k) ++ ('}' :: rest))))))))))) := by
        rw [skipWs_append_ws _ _ (ws_append hw (pad_ws _))]
        exact skipWs_cons_not_ws _ (by decide)
      have h1 : parseStr (escChars key.data ++ ('"' :: (':' :: (' ' ::
          (render (k + 1) v ++ (',' :: ('\n' :: (renderO k (JObj.cons key2 v2 tl2) ++
            ('\n' :: (pad (2 * k) ++ ('}' :: rest))))))))))) =
          some (key.data, ':' :: (' ' :: (render (k + 1) v ++
            (',' :: ('\n' :: (renderO k (JObj.cons key2 v2 tl2) ++
              ('\n' :: (pad (2 * k) ++ ('}' :: rest))))))))) :=
        parseStr_escChars key.data _
      have h3 : parseVal f1 (' ' :: (render (k + 1) v ++
          (',' :: ('\n' :: (renderO k (JObj.cons key2 v2 tl2) ++
            ('\n' :: (pad (2 * k) ++ ('}' :: rest)))))))) =
          some (v, ',' :: ('\n' :: (renderO k (JObj.cons key2 v2 tl2) ++
            ('\n' :: (pad (2 * k) ++ ('}' :: rest)))))) := by
        have := val_ok v f1 (k + 1) [' ']
          (',' :: ('\n' :: (renderO k (JObj.cons key2 v2 tl2) ++
            ('\n' :: (pad (2 * k) ++ ('}' :: rest))))))
          (by decide) hfv
          (numDelim_cons_of _ (by decide) (by decide) (by decide) (by decide))
        exact this
      rw [parseObjItems_step_comma f1 _ _ _ _ _ v _ _ h0 h1
        (skipWs_cons_not_ws _ (by decide)) h3 (skipWs_cons_not_ws _ (by decide))]
      rw [show ('\n' :: (renderO k (JObj.cons key2 v2 tl2) ++
          ('\n' :: (pad (2 * k) ++ ('}' :: rest)))) : List Char) =
          ['\n'] ++ (renderO k (JObj.cons key2 v2 tl2) ++
            ('\n' :: (pad (2 * k) ++ ('}' :: rest)))) from rfl]
      rw [objItems_ok tl2 key2 v2 f1 k ['\n'] rest nl_ws hfr]
      rfl
  termination_by tl _ v => sizeOf v + sizeOf tl
end

/-! ### Fuel adequacy: the default fuel `length + 2` covers any rendering -/

mutual
theorem fuelV_le : ∀ (v : Json) (k : Nat), fuelV v ≤ (render k v).length + 1
  | .null, _ => by
    simp [fuelV]
  | .bool b, _ => by
    cases b <;> simp [fuelV]
  | .num n, _ => by
    simp only [fuelV]
    omega
  | .str s, _ => by
    simp only [fuelV]
    omega
  | .arr a, k => by
    cases a with
    | nil =>
      rw [show render k (Json.arr JArr.nil) = ['[', ']'] from rfl]
      simp [fuelV, fuelA]
    | cons v tl =>
      have h := fuelA_le (JArr.cons v tl) k
      rw [show render k (Json.arr (JArr.cons v tl)) =
          '[' :: '\n' :: (renderA k (JArr.cons v tl) ++
            '\n' :: (pad (2 * k) ++ [']'])) from rfl]
      simp only [fuelV, List.length_cons, List.length_append]
      omega
  | .obj o, k => by
    cases o with
    | nil =>
      rw [show render k (Json.obj JObj.nil) = ['{', '}'] from rfl]
      simp [fuelV, fuelO]
    | cons key v tl =>
      have h := fuelO_le (JObj.cons key v tl) k
      rw [show render k (Json.obj (JObj.cons key v tl)) =
          '{' :: '\n' :: (renderO k (JObj.cons key v tl) ++
            '\n' :: (pad (2 * k) ++ ['}'])) from rfl]
      simp only [fuelV, List.length_cons, List.length_append]
      omega
  termination_by v _ => sizeOf v

theorem fuelA_le : ∀ (a : JArr) (k : Nat), fuelA a ≤ (renderA k a).length
  | .nil, _ => by
    simp [fuelA, renderA]
  | .cons v tl, k => by
    have hv := fuelV_le v (k + 1)
    cases tl with
    | nil =>
      rw [show renderA k (JArr.cons v JArr.nil) =
          pad (2 * (k + 1)) ++ (render (k + 1) v ++ []) from rfl]
      simp only [fuelA, List.length_append, List.length_nil, pad, List.length_replicate]
      omega
    | cons v2 tl2 =>
      have ht := fuelA_le (JArr.cons v2 tl2) k
      rw [show renderA k (JArr.cons v (JArr.cons v2 tl2)) =
          pad (2 * (k + 1)) ++ (render (k + 1) v ++
            (',' :: '\n' :: renderA k (JArr.cons v2 tl2))) from rfl]
      simp only [fuelA, List.length_append, List.length_cons, pad,
        List.length_replicate] at ht ⊢
      omega
  termination_by a _ => sizeOf a

theorem fuelO_le : ∀ (o : JObj) (k : Nat), fuelO o ≤ (renderO k o).length
  | .nil, _ => by
    simp [fuelO, renderO]
  | .cons key v tl, k => by
    have hv := fuelV_le v (k + 1)
    cases tl with
    | nil =>
      rw [show renderO k (JObj.cons key v JObj.nil) =
          pad (2 * (k + 1)) ++ ('"' :: (escChars key.data ++ ('"' :: ':' :: ' ' ::
            (render (k + 1) v ++ [])))) from rfl]
      simp only [fuelO, List.length_append, List.length_cons, List.length_nil, pad,
        List.length_replicate]
      omega
    | cons key2 v2 tl2 =>
      have ht := fuelO_le (JObj.cons key2 v2 tl2) k
      rw [show renderO k (JObj.cons key v (JObj.cons key2 v2 tl2)) =
          pad (2 * (k + 1)) ++ ('"' :: (escChars key.data ++ ('"' :: ':' :: ' ' ::
            (render (k + 1) v ++
              (',' :: '\n' :: renderO k (JObj.cons key2 v2 tl2)))))) from rfl]
      simp only [fuelO, List.length_append, List.length_cons, pad,
        List.length_replicate] at ht ⊢
      omega
  termination_by o _ => sizeOf o
end

/-- `json.loads` inverts `json.dumps(·, indent=2, ensure_ascii=False)` on
every JSON value. -/
theorem json_loads_pretty (v : Json) : json_loads (pretty_json v) = some v := by
  rw [json_loads]
  show json_loads_chars (render 0 v) = some v
  rw [json_loads_chars]
  have h1 : parseVal ((render 0 v).length + 2) (render 0 v) = some (v, []) := by
    have h := val_ok v ((render 0 v).length + 2) 0 [] []
      (fun c hc => absurd hc (List.not_mem_nil c))
      (by have := fuelV_le v 0; omega) rfl
    rw [List.nil_append, List.append_nil] at h
    exact h
  rw [h1]
  rfl

/-! ## General structure of the routine's result -/

/-- Every run of `sanitize_and_parse` ends in the "not recoverable" signal or
in a value that the strict decoder produced on some text (the raw input in
the direct-parse branch, the candidate substring in the boundary branch). -/
theorem sanitize_result_null_or_decoded (s : String) :
    sanitize_and_parse s = Json.null ∨
      ∃ t : String, json_loads t = some (sanitize_and_parse s) := by
  cases h : json_loads s with
  | some v =>
    have hs : sanitize_and_parse s = v := by simp [sanitize_and_parse, h]
    exact Or.inr ⟨s, by rw [hs]; exact h⟩
  | none =>
    cases hc : extractCandidate (repairedText s) with
    | none => exact Or.inl (by simp [sanitize_and_parse, h, hc])
    | some cand =>
      by_cases he : cand.isEmpty
      · exact Or.inl (by simp [sanitize_and_parse, h, hc, he])
      · cases hl : json_loads_chars cand with
        | none => exact Or.inl (by simp [sanitize_and_parse, h, hc, he, hl])
        | some v =>
          have hs : sanitize_and_parse s = v := by
            simp [sanitize_and_parse, h, hc, he, hl]
          exact Or.inr ⟨String.mk cand, by rw [hs]; exact hl⟩

/-! ## Claim C1 -/

/-- C1: on any input that the strict decoder accepts, `sanitize_and_parse`
returns exactly the strict decoder's value — the direct-parse step succeeds
and short-circuits every later repair step. -/
theorem C1_direct_parse_short_circuits (s : String) (v : Json)
    (h : json_loads s = some v) : sanitize_and_parse s = v := by
  simp [sanitize_and_parse, h]

theorem C1_direct_parse_short_circuits_witness :
    json_loads "\x7b\"a\": 1\x7d" = some (Json.obj (JObj.cons "a" (Json.num 1) JObj.nil)) ∧
      sanitize_and_parse "\x7b\"a\": 1\x7d" = Json.obj (JObj.cons "a" (Json.num 1) JObj.nil) :=
  ⟨rfl, C1_direct_parse_short_circuits _ _ rfl⟩

/-! ## Claim C2 -/

/-- C2, as stated, is false: the input `"3"` is strict-decoded by the direct
parse to the scalar `3`, which is neither an object nor an array, yet the
routine returns it. -/
theorem C2_counterexample :
    ¬ (∀ s : String, sanitize_and_parse s ≠ Json.null →
        ∃ t : String, json_loads t = some (sanitize_and_parse s) ∧
          isContainer (sanitize_and_parse s) = true) := by
  intro h
  obtain ⟨t, -, hcont⟩ := h "3" (by decide)
  revert hcont
  decide

/-- C2 amended: a non-`None` result of `sanitize_and_parse` is always the
result of successfully strict-decoding some syntactically valid JSON text —
as an arbitrary JSON value, not necessarily an object or array. -/
theorem C2_result_is_strictly_decoded (s : String)
    (h : sanitize_and_parse s ≠ Json.null) :
    ∃ t : String, json_loads t = some (sanitize_and_parse s) :=
  (sanitize_result_null_or_decoded s).resolve_left h

theorem C2_result_is_strictly_decoded_witness :
    sanitize_and_parse "[1]" ≠ Json.null ∧
      ∃ t : String, json_loads t = some (sanitize_and_parse "[1]") :=
  ⟨by decide, C2_result_is_strictly_decoded "[1]" (by decide)⟩

/-! ## Claim C3 -/

/-- C3: `sanitize_and_parse` is a total function — modelled exceptions
(`json.loads` failures) are caught inside it — and its result is always
either a strictly decoded value or the definitive `None` signal. -/
theorem C3_never_raises_value_or_none (s : String) :
    sanitize_and_parse s = Json.null ∨
      ∃ t : String, json_loads t = some (sanitize_and_parse s) :=
  sanitize_result_null_or_decoded s

/-! ## Claim C4 -/

/-- C4, as stated, is false: on `[0:{"a":1}]` the routine does not return the
array `[{"a":1}]`. -/
theorem C4_counterexample :
    sanitize_and_parse "[0:\x7b\"a\":1\x7d]" ≠
      Json.arr (JArr.cons (Json.obj (JObj.cons "a" (Json.num 1) JObj.nil)) JArr.nil) := by
  decide

/-- C4 amended: on `[0:{"a":1}]` the numeric-key repair strips the bare
`0:` label, and boundary extraction then prefers the object candidate
(first `{` to last `}`), so the routine returns the object `{"a":1}` rather
than the array `[{"a":1}]`. -/
theorem C4_numeric_key_repair_object_result :
    sanitize_and_parse "[0:\x7b\"a\":1\x7d]" = Json.obj (JObj.cons "a" (Json.num 1) JObj.nil) ∧
      reSubNumKey '[' (pyStrip "[0:\x7b\"a\":1\x7d]".data) = "[\x7b\"a\":1\x7d]".data ∧
      extractCandidate (repairedText "[0:\x7b\"a\":1\x7d]") = some "\x7b\"a\":1\x7d".data := by
  refine ⟨rfl, rfl, rfl⟩

/-! ## Claim C6 -/

/-- C6: quote normalization is applied exactly when the stripped, numeric-key
repaired text contains a single quote and no double quote in its first 200
characters; `{'a': 'b'}` decodes to `{"a": "b"}`, and any text with an early
double quote keeps every single quote intact. -/
theorem C6_quote_normalization_guard :
    sanitize_and_parse "\x7b'a': 'b'\x7d" = Json.obj (JObj.cons "a" (Json.str "b") JObj.nil) ∧
      ∀ t : List Char,
        ('\'' ∈ t ∧ '"' ∉ t.take 200 →
            quoteNorm t = t.map (fun c => if c = '\'' then '"' else c)) ∧
        (¬ ('\'' ∈ t ∧ '"' ∉ t.take 200) → quoteNorm t = t) := by
  refine ⟨rfl, fun t => ⟨fun h => ?_, fun h => ?_⟩⟩
  · simp only [quoteNorm, if_pos h]
  · simp only [quoteNorm, if_neg h]

theorem C6_quote_normalization_guard_witness :
    quoteNorm "\"x\": 'y'".data = "\"x\": 'y'".data :=
  (C6_quote_normalization_guard.2 _).2 (by decide)

/-! ## Character-preservation lemmas for the repair pipeline -/

theorem dropLeadWs_subset : ∀ (l : List Char) (c : Char), c ∈ dropLeadWs l → c ∈ l := by
  intro l
  induction l with
  | nil => intro c h; rwa [dropLeadWs] at h
  | cons x r ih =>
    intro c h
    rw [dropLeadWs] at h
    by_cases hx : isPyWs x
    · rw [if_pos hx] at h
      exact List.mem_cons_of_mem x (ih c h)
    · rwa [if_neg hx] at h

theorem pyStrip_subset (l : List Char) (c : Char) (h : c ∈ pyStrip l) : c ∈ l := by
  rw [pyStrip] at h
  rw [List.mem_reverse] at h
  have h2 := dropLeadWs_subset _ _ h
  rw [List.mem_reverse] at h2
  exact dropLeadWs_subset _ _ h2

theorem reSubNumKeyAux_subset (lead : Char) :
    ∀ (f : Nat) (l : List Char) (c : Char), c ∈ reSubNumKeyAux lead f l → c ∈ l := by
  intro f
  induction f with
  | zero => intro l c h; rwa [reSubNumKeyAux] at h
  | succ f ih =>
    intro l c h
    match l with
    | [] => rw [reSubNumKeyAux] at h; exact absurd h (List.not_mem_nil c)
    | x :: rest =>
      rw [reSubNumKeyAux] at h
      by_cases hx : x = lead
      · rw [if_pos hx] at h
        cases hm : matchNumLen rest with
        | some n =>
          rw [hm] at h
          rcases List.mem_cons.mp h with h | h
          · exact h ▸ hx ▸ List.mem_cons_self x rest
          · exact List.mem_cons_of_mem x (List.drop_subset n rest (ih _ _ h))
        | none =>
          rw [hm] at h
          rcases List.mem_cons.mp h with h | h
          · exact h ▸ List.mem_cons_self x rest
          · exact List.mem_cons_of_mem x (ih _ _ h)
      · rw [if_neg hx] at h
        rcases List.mem_cons.mp h with h | h
        · exact h ▸ List.mem_cons_self x rest
        · exact List.mem_cons_of_mem x (ih _ _ h)

theorem reSubNumKey_subset (lead : Char) (l : List Char) (c : Char)
    (h : c ∈ reSubNumKey lead l) : c ∈ l :=
  reSubNumKeyAux_subset lead l.length l c h

theorem quoteNorm_subset (t : List Char) (c : Char) (h : c ∈ quoteNorm t) :
    c ∈ t ∨ c = '"' := by
  rw [quoteNorm] at h
  by_cases hc : '\'' ∈ t ∧ '"' ∉ t.take 200
  · rw [if_pos hc] at h
    rcases List.mem_map.mp h with ⟨x, hx, hxc⟩
    by_cases hq : x = '\''
    · right; rw [← hxc, if_pos hq]
    · left; rw [← hxc, if_neg hq]; exact hx
  · rw [if_neg hc] at h; exact Or.inl h

/-- Every character of the repaired text is a character of the raw input or
the double quote introduced by quote normalization. -/
theorem repairedText_subset (s : String) (c : Char) (h : c ∈ repairedText s) :
    c ∈ s.data ∨ c = '"' := by
  rw [repairedText] at h
  rcases quoteNorm_subset _ _ h with h | h
  · exact Or.inl (pyStrip_subset _ _
      (reSubNumKey_subset _ _ _ (reSubNumKey_subset _ _ _ (reSubNumKey_subset _ _ _ h))))
  · exact Or.inr h

theorem firstIdx_eq_none (t : List Char) (c : Char) (h : c ∉ t) :
    firstIdx t c = none := by
  induction t with
  | nil => rfl
  | cons x r ih =>
    rw [firstIdx]
    rw [if_neg (fun hx : x = c => h (hx ▸ List.mem_cons_self x r))]
    rw [ih (fun hc => h (List.mem_cons_of_mem x hc))]
    rfl

theorem firstIdx_lt_length (t : List Char) (c : Char) :
    ∀ i, firstIdx t c = some i → i < t.length := by
  induction t with
  | nil => intro i h; exact absurd h (by simp [firstIdx])
  | cons x r ih =>
    intro i h
    rw [firstIdx] at h
    by_cases hx : x = c
    · rw [if_pos hx] at h
      cases h
      simp
    · rw [if_neg hx] at h
      cases hf : firstIdx r c with
      | none => rw [hf] at h; exact absurd h (by simp)
      | some j =>
        rw [hf] at h
        have : i = j + 1 := by
          simpa [Option.map] using h.symm
        subst this
        have := ih j hf
        simp only [List.length_cons]
        omega

/-! ## Claim C5 -/

/-- C5, as stated, is false: the input `"3"` contains none of the bracket
characters, yet the direct parse strict-decodes it to the scalar `3`, which
the routine returns instead of the "not recoverable" signal. -/
theorem C5_counterexample :
    (∀ c ∈ "3".data, c ≠ '{' ∧ c ≠ '}' ∧ c ≠ '[' ∧ c ≠ ']') ∧
      sanitize_and_parse "3" ≠ Json.null := by
  decide

/-- C5 amended: on any input with none of `{`, `}`, `[`, `]` *whose direct
strict parse also fails*, the routine returns the "not recoverable" signal
(bracket-free inputs that are valid JSON scalars are decoded by step 1). -/
theorem C5_no_brackets_not_recoverable (s : String)
    (hl : json_loads s = none)
    (hb : ∀ c ∈ s.data, c ≠ '{' ∧ c ≠ '}' ∧ c ≠ '[' ∧ c ≠ ']') :
    sanitize_and_parse s = Json.null := by
  have hobj : '{' ∉ repairedText s := by
    intro hc
    rcases repairedText_subset s '{' hc with h | h
    · exact (hb _ h).1 rfl
    · exact absurd h (by decide)
  have harr : '[' ∉ repairedText s := by
    intro hc
    rcases repairedText_subset s '[' hc with h | h
    · exact (hb _ h).2.2.1 rfl
    · exact absurd h (by decide)
  have h1 : firstIdx (repairedText s) '{' = none := firstIdx_eq_none _ _ hobj
  have h2 : firstIdx (repairedText s) '[' = none := firstIdx_eq_none _ _ harr
  have hex : extractCandidate (repairedText s) = none := by
    rw [extractCandidate, objCand, arrCand, h1, h2]
  simp [sanitize_and_parse, hl, hex]

theorem C5_no_brackets_not_recoverable_witness :
    json_loads "abc" = none ∧ sanitize_and_parse "abc" = Json.null :=
  ⟨by decide, C5_no_brackets_not_recoverable "abc" (by decide) (by decide)⟩

/-! ## Whitespace-only inputs -/

theorem skipWs_subset : ∀ (l : List Char) (c : Char), c ∈ skipWs l → c ∈ l := by
  intro l
  induction l with
  | nil => intro c h; rwa [skipWs] at h
  | cons x r ih =>
    intro c h
    rw [skipWs] at h
    by_cases hx : isJsonWs x
    · rw [if_pos hx] at h
      exact List.mem_cons_of_mem x (ih c h)
    · rwa [if_neg hx] at h

theorem skipWs_head_not_ws :
    ∀ (l : List Char) (c : Char) (r : List Char),
      skipWs l = c :: r → isJsonWs c = false := by
  intro l
  induction l with
  | nil => intro c r h; exact absurd h (by rw [skipWs]; exact fun hh => List.noConfusion hh)
  | cons x t ih =>
    intro c r h
    rw [skipWs] at h
    by_cases hx : isJsonWs x
    · rw [if_pos hx] at h; exact ih c r h
    · rw [if_neg hx] at h
      obtain ⟨h1, -⟩ := List.cons.injEq x t c r ▸ h
      simp only [Bool.not_eq_true] at hx
      exact h1 ▸ hx

/-- A whitespace-only input fails the strict parse: after skipping JSON
whitespace the head, if any, is a Python-whitespace character that no JSON
token can start with. -/
theorem parseVal_all_pyws (l : List Char) (hws : ∀ c ∈ l, isPyWs c = true) :
    ∀ f, parseVal f l = none := by
  intro f
  cases f with
  | zero => rfl
  | succ f =>
    cases hsk : skipWs l with
    | nil => rw [parseVal, hsk]
    | cons c r =>
      have hpy : isPyWs c = true :=
        hws c (skipWs_subset l c (hsk ▸ List.mem_cons_self c r))
      have hjw : isJsonWs c = false := skipWs_head_not_ws l c r hsk
      have hc : c = '\x0b' ∨ c = '\x0c' := by
        simp only [isPyWs, Bool.or_eq_true, decide_eq_true_eq] at hpy
        rcases hpy with ((((h | h) | h) | h) | h) | h <;> subst h <;>
          first
          | exact absurd hjw (by decide)
          | exact Or.inl rfl
          | exact Or.inr rfl
      rcases hc with hc | hc <;> subst hc <;> rw [parseVal, hsk] <;>
        simp [parseIntTok, parsePosInt, isDig]

theorem json_loads_all_pyws (s : String) (h : ∀ c ∈ s.data, isPyWs c = true) :
    json_loads s = none := by
  rw [json_loads, json_loads_chars, parseVal_all_pyws s.data h]

theorem dropLeadWs_all (l : List Char) (h : ∀ c ∈ l, isPyWs c = true) :
    dropLeadWs l = [] := by
  induction l with
  | nil => rfl
  | cons x r ih =>
    rw [dropLeadWs, if_pos (h x (List.mem_cons_self x r))]
    exact ih (fun c hc => h c (List.mem_cons_of_mem x hc))

theorem pyStrip_all (l : List Char) (h : ∀ c ∈ l, isPyWs c = true) :
    pyStrip l = [] := by
  rw [pyStrip, dropLeadWs_all l h]
  rfl

/-! ## Claim C9 -/

/-- C9: on the empty input and on every whitespace-only input the routine
returns the "not recoverable" signal (and, being a total function of the
embedding, raises nothing). -/
theorem C9_empty_or_whitespace_not_recoverable (s : String)
    (h : ∀ c ∈ s.data, isPyWs c = true) :
    sanitize_and_parse s = Json.null := by
  have hl : json_loads s = none := json_loads_all_pyws s h
  have hrep : repairedText s = [] := by
    rw [repairedText, pyStrip_all s.data h]
    decide
  have hex : extractCandidate (repairedText s) = none := by rw [hrep]; rfl
  simp [sanitize_and_parse, hl, hex]

theorem C9_empty_or_whitespace_not_recoverable_witness :
    sanitize_and_parse "" = Json.null ∧ sanitize_and_parse " \t\n " = Json.null :=
  ⟨C9_empty_or_whitespace_not_recoverable "" (by decide),
    C9_empty_or_whitespace_not_recoverable " \t\n " (by decide)⟩

/-! ## Claim C10 -/

theorem sliceIncl_ne_nil (t : List Char) (s e : Nat) (hs : s < t.length)
    (hse : s < e) : sliceIncl t s e ≠ [] := by
  rw [sliceIncl]
  intro h
  have h1 : ((t.drop s).take (e + 1 - s)).length = 0 := by rw [h]; rfl
  rw [List.length_take, List.length_drop] at h1
  omega

theorem objCand_some_ne_nil (t : List Char) (c : List Char)
    (h : objCand t = some c) : c ≠ [] := by
  rw [objCand] at h
  cases h1 : firstIdx t '{' with
  | none => rw [h1] at h; exact absurd h (by simp)
  | some s =>
    cases h2 : lastIdx t '}' with
    | none => rw [h1, h2] at h; exact absurd h (by simp)
    | some e =>
      rw [h1, h2] at h
      change (if s < e then some (sliceIncl t s e) else none) = some c at h
      by_cases hse : s < e
      · rw [if_pos hse] at h
        injection h with h
        exact h ▸ sliceIncl_ne_nil t s e (firstIdx_lt_length t '{' s h1) hse
      · rw [if_neg hse] at h
        exact absurd h (by simp)

/-- C10: when the repaired text has an object candidate, only that substring
is decoded; if its decode fails the routine returns the "not recoverable"
signal without ever attempting the array candidate (present or not, valid
or not). -/
theorem C10_object_candidate_only (raw : String) (c : List Char)
    (h1 : json_loads raw = none)
    (h2 : objCand (repairedText raw) = some c)
    (_h3 : (arrCand (repairedText raw)).isSome = true)
    (h4 : json_loads_chars c = none) :
    extractCandidate (repairedText raw) = some c ∧
      sanitize_and_parse raw = Json.null := by
  have hex : extractCandidate (repairedText raw) = some c := by
    rw [extractCandidate, h2]
  refine ⟨hex, ?_⟩
  have hne : c.isEmpty = false := by
    cases hc : c with
    | nil => exact absurd hc (objCand_some_ne_nil _ _ h2)
    | cons x r => rfl
  simp [sanitize_and_parse, h1, hex, hne, h4]

theorem C10_object_candidate_only_witness :
    json_loads "{oops} [1]" = none ∧
      objCand (repairedText "{oops} [1]") = some "{oops}".data ∧
      arrCand (repairedText "{oops} [1]") = some "[1]".data ∧
      json_loads_chars "[1]".data = some (Json.arr (JArr.cons (Json.num 1) JArr.nil)) ∧
      json_loads_chars "{oops}".data = none ∧
      sanitize_and_parse "{oops} [1]" = Json.null := by
  refine ⟨by decide, by decide, by decide, by decide, by decide, ?_⟩
  exact (C10_object_candidate_only "{oops} [1]" "{oops}".data
    (by decide) (by decide) (by decide) (by decide)).2

/-! ## Claim C7 -/

/-- C7: on a model reply with commentary around the JSON, the direct parse
fails, boundary extraction selects the substring from the first `{` to the
last `}`, and the routine returns the decoded object `{"clauses": []}`. -/
theorem C7_boundary_extraction_commentary :
    json_loads "Sure, here is the JSON: \x7b\"clauses\": []\x7d Hope that helps!" = none ∧
      extractCandidate
          (repairedText "Sure, here is the JSON: \x7b\"clauses\": []\x7d Hope that helps!") =
        some "\x7b\"clauses\": []\x7d".data ∧
      sanitize_and_parse "Sure, here is the JSON: \x7b\"clauses\": []\x7d Hope that helps!" =
        Json.obj (JObj.cons "clauses" (Json.arr JArr.nil) JObj.nil) := by
  refine ⟨rfl, rfl, rfl⟩

/-! ## Claim C8 -/

/-- C8: round-trip stability — re-serializing a value the routine
successfully returned (with the `pretty_json` serialization of line 218) and
feeding the text back through `sanitize_and_parse` reproduces the value: the
direct parse accepts the serialized text outright. -/
theorem C8_roundtrip_stable (s : String) (_h : sanitize_and_parse s ≠ Json.null) :
    sanitize_and_parse (pretty_json (sanitize_and_parse s)) = sanitize_and_parse s := by
  set v := sanitize_and_parse s with hv
  have hl := json_loads_pretty v
  simp [sanitize_and_parse, hl]

theorem C8_roundtrip_stable_witness :
    sanitize_and_parse "[1]" ≠ Json.null ∧
      sanitize_and_parse (pretty_json (sanitize_and_parse "[1]")) =
        sanitize_and_parse "[1]" :=
  ⟨by decide, C8_roundtrip_stable "[1]" (by decide)⟩
